import Mathlib

/-!
Shallow embedding of the streamable background-process execution subsystem of
the pi-mono repository (packages/coding-agent): the output ring and session
store of src/packages/coding-agent/src/core/tools/process-registry.ts, the
supervisor of src/packages/coding-agent/src/core/tools/bash.ts, and the
control operations of src/packages/coding-agent/src/core/tools/process.ts,
list-processes.ts and get-process-log.ts.

Text is modelled as List Char; the JavaScript expression
text.slice(text.length - max) becomes List.drop (text.length - max).
Timestamps (Date.now()) are Int.  Session ids (UUID strings in the source)
are Nat.  exitCode : Option Int models number | null | undefined (null and
undefined are treated identically by every consumer, always through ?? ).
exitSignal : Option (List Char) models NodeJS.Signals | null.

The snapshot of the repository contains an older generation of
process-registry.ts: its callers in core/tools (process.ts, get-process-log.ts,
list-processes.ts, bash.ts) reference a finished-session partition, a session
status field, a backgrounded flag, a 4-argument markExited and a TTL sweeper
that do not appear in any file of the snapshot.  Those missing registry
operations are modelled from the spec below; each such definition carries a
doc comment beginning "Modelled from the spec:".  Everything else is
translated directly from the source files.
-/

/-- The two output streams wired by the supervisor (core/tools/bash.ts). -/
inductive StreamKind
  | stdout
  | stderr
deriving DecidableEq, Repr

/-- Session status values used by core/tools/process.ts and
get-process-log.ts: "running", "completed", "failed". -/
inductive SessionStatus
  | running
  | completed
  | failed
deriving DecidableEq, Repr

/-- From src/packages/coding-agent/src/core/tools/process-registry.ts
(trimWithCap, lines 64-67): if text.length <= max return text, else the
suffix of length max (text.slice(text.length - max)). -/
def trimWithCap (text : List Char) (max : Nat) : List Char :=
  if text.length ≤ max then text else text.drop (text.length - max)

/-- From src/packages/coding-agent/src/core/tools/process-registry.ts
(tail, lines 59-62): same body as trimWithCap, with default count 2000. -/
def tail (text : List Char) (max : Nat := 2000) : List Char :=
  if text.length ≤ max then text else text.drop (text.length - max)

/-- From src/packages/coding-agent/src/core/tools/bash.ts (clampNumber,
lines 231-234): undefined (or NaN) yields the default, otherwise
Math.min(Math.max(value, min), max). -/
def clampNumber (value : Option Int) (defaultValue minV maxV : Int) : Int :=
  match value with
  | none => defaultValue
  | some v => min (max v minV) maxV

/-- The per-invocation session record.  Fields id through exited follow the
ProcessSession interface of src/core/tools/process-registry.ts together with
the session literal of src/core/tools/bash.ts lines 81-97 (command,
totalOutputChars, truncated).  The fields backgrounded, status and endedAt are
referenced throughout core/tools/process.ts, list-processes.ts and
get-process-log.ts but are declared only in the newer process-registry.ts
that is absent from the snapshot; they are carried here so the control
operations can be embedded (spec §3: backgrounded is false until the
supervisor yields, status starts Running, endedAt is set on exit). -/
structure ProcessSession where
  id : Nat
  command : List Char
  startedAt : Int
  cwd : Option (List Char)
  maxOutputChars : Nat
  totalOutputChars : Nat
  pendingStdout : List (List Char)
  pendingStderr : List (List Char)
  aggregated : List Char
  tail : List Char
  exited : Bool
  exitCode : Option Int
  exitSignal : Option (List Char)
  truncated : Bool
  backgrounded : Bool
  status : SessionStatus
  endedAt : Int
deriving DecidableEq, Repr

/-- The freshly registered session of src/core/tools/bash.ts lines 81-98:
empty ring, empty pending queues, not exited, truncated = false,
totalOutputChars = 0; backgrounded = false and status = running per spec
§4.5 step 2 (those two fields are not in the src literal). -/
def startSession (idv : Nat) (command : List Char) (startedAt : Int)
    (cwd : Option (List Char)) (maxOutput : Nat) : ProcessSession :=
  { id := idv
    command := command
    startedAt := startedAt
    cwd := cwd
    maxOutputChars := maxOutput
    totalOutputChars := 0
    pendingStdout := []
    pendingStderr := []
    aggregated := []
    tail := []
    exited := false
    exitCode := none
    exitSignal := none
    truncated := false
    backgrounded := false
    status := SessionStatus.running
    endedAt := 0 }

/-- From src/core/tools/process-registry.ts (appendOutput, lines 32-39):
push the chunk onto the pending queue of its stream, re-aggregate under the
cap, refresh the 2000-character tail.  This src version does not touch the
truncated flag or totalOutputChars. -/
def appendOutput (session : ProcessSession) (stream : StreamKind)
    (chunk : List Char) : ProcessSession :=
  { session with
      pendingStdout :=
        if stream = StreamKind.stdout then session.pendingStdout ++ [chunk]
        else session.pendingStdout
      pendingStderr :=
        if stream = StreamKind.stderr then session.pendingStderr ++ [chunk]
        else session.pendingStderr
      aggregated := trimWithCap (session.aggregated ++ chunk) session.maxOutputChars
      tail := tail (trimWithCap (session.aggregated ++ chunk) session.maxOutputChars) 2000 }

/-- From src/core/tools/process-registry.ts (drainSession, lines 41-47):
returns the joined stdout and stderr queues and clears both; the ring is not
touched. -/
def drainSession (session : ProcessSession) :
    ProcessSession × List Char × List Char :=
  ({ session with pendingStdout := [], pendingStderr := [] },
   session.pendingStdout.flatten, session.pendingStderr.flatten)

/-- From src/core/tools/process-registry.ts (markExited, lines 49-57): the
superseded 3-argument version, which unconditionally records exited, code and
signal on the session.  The newer 4-argument version called by core/tools is
modelled separately on the registry (markExitedReg). -/
def markExited (session : ProcessSession) (exitCode : Option Int)
    (exitSignal : Option (List Char)) : ProcessSession :=
  { session with exited := true, exitCode := exitCode, exitSignal := exitSignal }

/-- A sequence of data events folded through appendOutput, as the stdout and
stderr handlers of src/core/tools/bash.ts lines 119-133 do. -/
def runAppends (s : ProcessSession) (chunks : List (StreamKind × List Char)) :
    ProcessSession :=
  chunks.foldl (fun acc p => appendOutput acc p.1 p.2) s

/-- The concatenation of every chunk ever appended, in arrival order. -/
def joinedHistory (chunks : List (StreamKind × List Char)) : List Char :=
  (chunks.map Prod.snd).flatten

theorem trimWithCap_eq_drop (text : List Char) (cap : Nat) :
    trimWithCap text cap = text.drop (text.length - cap) := by
  unfold trimWithCap
  by_cases h : text.length ≤ cap
  · simp [h, Nat.sub_eq_zero_of_le h]
  · simp [h]

theorem tail_eq_trimWithCap (text : List Char) (cap : Nat) :
    tail text cap = trimWithCap text cap := rfl

theorem trimWithCap_length (text : List Char) (cap : Nat) :
    (trimWithCap text cap).length = min text.length cap := by
  rw [trimWithCap_eq_drop, List.length_drop]
  omega

theorem trimWithCap_append_left (l m : List Char) (cap : Nat) :
    trimWithCap (trimWithCap l cap ++ m) cap = trimWithCap (l ++ m) cap := by
  have hle : l.length - cap ≤ l.length := Nat.sub_le _ _
  rw [trimWithCap_eq_drop l cap, ← List.drop_append_of_le_length hle]
  rw [trimWithCap_eq_drop, trimWithCap_eq_drop, List.drop_drop]
  congr 1
  simp only [List.length_drop, List.length_append]
  omega

theorem ringFold_eq (cap : Nat) (chunks : List (List Char)) :
    ∀ l : List Char,
      chunks.foldl (fun a c => trimWithCap (a ++ c) cap) (trimWithCap l cap)
        = trimWithCap (l ++ chunks.flatten) cap := by
  induction chunks with
  | nil => intro l; simp
  | cons c cs ih =>
      intro l
      simp only [List.foldl_cons, List.flatten_cons]
      rw [trimWithCap_append_left, ih (l ++ c), List.append_assoc]

theorem runAppends_aggregated (s : ProcessSession)
    (chunks : List (StreamKind × List Char)) :
    (runAppends s chunks).aggregated
      = (chunks.map Prod.snd).foldl
          (fun a c => trimWithCap (a ++ c) s.maxOutputChars) s.aggregated := by
  induction chunks generalizing s with
  | nil => rfl
  | cons p ps ih =>
      have h := ih (appendOutput s p.1 p.2)
      simp only [runAppends, List.foldl_cons, List.map_cons] at h ⊢
      rw [h]
      rfl

/-- C1: for every sequence of chunk appends into an output ring with cap C
(appendOutput / trimWithCap with maxOutputChars = C), the aggregated content
is exactly the suffix of length min(total written, C) of the concatenation of
all chunks appended so far, hence its length never exceeds C; in particular a
single chunk larger than C leaves exactly the last C characters of that
chunk. -/
theorem c1_output_ring_suffix (cap idv : Nat) (cmd : List Char) (t0 : Int)
    (cwd : Option (List Char)) (chunks : List (StreamKind × List Char)) :
    (runAppends (startSession idv cmd t0 cwd cap) chunks).aggregated
        = (joinedHistory chunks).drop ((joinedHistory chunks).length - cap)
    ∧ (runAppends (startSession idv cmd t0 cwd cap) chunks).aggregated.length
        = min (joinedHistory chunks).length cap
    ∧ (runAppends (startSession idv cmd t0 cwd cap) chunks).aggregated.length ≤ cap
    ∧ ∀ c : List Char,
        (appendOutput (startSession idv cmd t0 cwd cap) StreamKind.stdout c).aggregated
          = c.drop (c.length - cap) := by
  have hagg : (runAppends (startSession idv cmd t0 cwd cap) chunks).aggregated
      = trimWithCap (joinedHistory chunks) cap := by
    rw [runAppends_aggregated]
    have h0 : (trimWithCap [] cap) = ([] : List Char) := by
      simp [trimWithCap]
    have := ringFold_eq cap (chunks.map Prod.snd) []
    rw [h0] at this
    simpa [joinedHistory, startSession] using this
  refine ⟨?_, ?_, ?_, ?_⟩
  · rw [hagg, trimWithCap_eq_drop]
  · rw [hagg, trimWithCap_length]
  · rw [hagg, trimWithCap_length]; omega
  · intro c
    simp [appendOutput, startSession, trimWithCap_eq_drop]

/-- C8 counterexample: tail with no explicit count keeps the last 2000
characters, not 2048: on a 2001-character string the claimed default (2048)
would return the whole string, but the code drops the first character. -/
theorem c8_tail_default_counterexample :
    tail (List.replicate 2001 'a') ≠ List.replicate 2001 'a'
    ∧ tail (List.replicate 2001 'a') = List.replicate 2000 'a' := by
  have h : tail (List.replicate 2001 'a') = List.replicate 2000 'a' := by
    rw [show tail (List.replicate 2001 'a') = trimWithCap (List.replicate 2001 'a') 2000 from rfl,
      trimWithCap_eq_drop, List.length_replicate, List.drop_replicate]
  refine ⟨?_, h⟩
  rw [h]
  intro hcontra
  have hlen := congrArg List.length hcontra
  rw [List.length_replicate, List.length_replicate] at hlen
  exact absurd hlen (by norm_num)

/-- C8 amended: tail with no explicit count returns the last 2000 characters
(all of the string when it is shorter than 2000), and appendOutput maintains
the session tail as exactly the tail of the aggregated content under that
default count. -/
theorem c8_tail_default_amended (l : List Char) (s : ProcessSession)
    (st : StreamKind) (c : List Char) :
    tail l = l.drop (l.length - 2000)
    ∧ (tail l).length = min l.length 2000
    ∧ (l.length ≤ 2000 → tail l = l)
    ∧ (appendOutput s st c).tail = tail ((appendOutput s st c).aggregated) := by
  refine ⟨?_, ?_, ?_, ?_⟩
  · rw [tail_eq_trimWithCap, trimWithCap_eq_drop]
  · rw [tail_eq_trimWithCap, trimWithCap_length]
  · intro h; simp [tail, h]
  · rfl

/-- C8 amended witness at a concrete input. -/
theorem c8_tail_default_amended_witness :
    (['x'].length ≤ 2000 → tail ['x'] = ['x']) ∧ tail ['x'] = ['x'] := by
  have h := c8_tail_default_amended ['x']
      (startSession 0 [] 0 none 10) StreamKind.stdout ['x']
  exact ⟨h.2.2.1, h.2.2.1 (by decide)⟩

/-- Modelled from the spec: the newer appendOutput of the process registry
(absent from the snapshot; the src version, embedded above as appendOutput,
predates the flag).  Spec §4.2: appending anything that causes trimming sets
truncated permanently; the design plan records the rule as "mark truncated
when trimWithCap cuts aggregated output (compare lengths before/after
trim)".  It also advances totalOutputChars, the counter initialised in
src/core/tools/bash.ts line 88 but updated only by the missing registry. -/
def appendOutputTracked (session : ProcessSession) (stream : StreamKind)
    (chunk : List Char) : ProcessSession :=
  { appendOutput session stream chunk with
      truncated := session.truncated
        || decide (session.maxOutputChars < (session.aggregated ++ chunk).length)
      totalOutputChars := session.totalOutputChars + chunk.length }

/-- A sequence of data events folded through the tracked append. -/
def runAppendsTracked (s : ProcessSession)
    (chunks : List (StreamKind × List Char)) : ProcessSession :=
  chunks.foldl (fun acc p => appendOutputTracked acc p.1 p.2) s

/-- Invariant tying a session's ring to the number of characters ever
written: the ring holds min(total, cap) characters and truncated records
whether the total ever exceeded the cap. -/
def ringInvariant (s : ProcessSession) (total : Nat) : Prop :=
  s.aggregated.length = min total s.maxOutputChars
  ∧ s.truncated = decide (s.maxOutputChars < total)

theorem appendOutputTracked_invariant (s : ProcessSession) (st : StreamKind)
    (c : List Char) (total : Nat) (h : ringInvariant s total) :
    ringInvariant (appendOutputTracked s st c) (total + c.length) := by
  obtain ⟨h1, h2⟩ := h
  constructor
  · show (trimWithCap (s.aggregated ++ c) s.maxOutputChars).length
        = min (total + c.length) s.maxOutputChars
    rw [trimWithCap_length, List.length_append, h1]
    omega
  · show (s.truncated || decide (s.maxOutputChars < (s.aggregated ++ c).length))
        = decide (s.maxOutputChars < total + c.length)
    rw [h2, List.length_append, h1]
    by_cases hp : s.maxOutputChars < total
      <;> by_cases hq : s.maxOutputChars < min total s.maxOutputChars + c.length
      <;> by_cases hr : s.maxOutputChars < total + c.length
      <;> simp [hp, hq, hr] <;> omega

theorem runAppendsTracked_invariant (chunks : List (StreamKind × List Char)) :
    ∀ (s : ProcessSession) (total : Nat), ringInvariant s total →
      ringInvariant (runAppendsTracked s chunks)
        (total + (joinedHistory chunks).length) := by
  induction chunks with
  | nil =>
      intro s total h
      simpa [runAppendsTracked, joinedHistory] using h
  | cons p ps ih =>
      intro s total h
      have h1 := appendOutputTracked_invariant s p.1 p.2 total h
      have h2 := ih (appendOutputTracked s p.1 p.2) (total + p.2.length) h1
      simp only [runAppendsTracked, List.foldl_cons] at h2 ⊢
      simp only [joinedHistory, List.map_cons, List.flatten_cons,
        List.length_append] at h2 ⊢
      rw [show total + (p.2.length + ((ps.map Prod.snd).flatten).length)
          = total + p.2.length + ((ps.map Prod.snd).flatten).length by omega]
      exact h2

/-- C7 (truncated flag): starting from a fresh session with cap C, the
truncated flag after a sequence of appends is true exactly when the total
number of characters written exceeds C — so a total of exactly C leaves it
false, a total of C+1 sets it — and once set it stays set for any further
appends. -/
theorem c7_truncated_iff (cap idv : Nat) (cmd : List Char) (t0 : Int)
    (cwd : Option (List Char)) (chunks more : List (StreamKind × List Char)) :
    ((runAppendsTracked (startSession idv cmd t0 cwd cap) chunks).truncated = true
        ↔ cap < (joinedHistory chunks).length)
    ∧ ((runAppendsTracked (startSession idv cmd t0 cwd cap) chunks).truncated = true →
        (runAppendsTracked
            (runAppendsTracked (startSession idv cmd t0 cwd cap) chunks)
            more).truncated = true) := by
  have hstart : ringInvariant (startSession idv cmd t0 cwd cap) 0 := by
    constructor
    · simp [startSession]
    · simp [startSession]
  have hmain := runAppendsTracked_invariant chunks (startSession idv cmd t0 cwd cap) 0 hstart
  have hcap : (runAppendsTracked (startSession idv cmd t0 cwd cap) chunks).maxOutputChars = cap := by
    have : ∀ (cs : List (StreamKind × List Char)) (s : ProcessSession),
        (runAppendsTracked s cs).maxOutputChars = s.maxOutputChars := by
      intro cs
      induction cs with
      | nil => intro s; rfl
      | cons q qs ihq => intro s; simpa [runAppendsTracked] using ihq (appendOutputTracked s q.1 q.2)
    simp [this, startSession]
  have htr := hmain.2
  rw [hcap] at htr
  constructor
  · rw [htr]
    simp
  · intro hset
    have hmore := runAppendsTracked_invariant more
      (runAppendsTracked (startSession idv cmd t0 cwd cap) chunks)
      (0 + (joinedHistory chunks).length) hmain
    have htr2 := hmore.2
    have hcap2 : (runAppendsTracked (runAppendsTracked (startSession idv cmd t0 cwd cap) chunks) more).maxOutputChars = cap := by
      have : ∀ (cs : List (StreamKind × List Char)) (s : ProcessSession),
          (runAppendsTracked s cs).maxOutputChars = s.maxOutputChars := by
        intro cs
        induction cs with
        | nil => intro s; rfl
        | cons q qs ihq => intro s; simpa [runAppendsTracked] using ihq (appendOutputTracked s q.1 q.2)
      simp [this, startSession]
    rw [hcap2] at htr2
    rw [htr2]
    rw [htr] at hset
    simp only [decide_eq_true_eq] at hset ⊢
    omega

/-- C7 witness: with cap 2, writing 3 characters sets truncated, and it
stays set after appending one more chunk. -/
theorem c7_truncated_iff_witness :
    (runAppendsTracked (startSession 0 [] 0 none 2)
        [(StreamKind.stdout, ['a', 'b', 'c'])]).truncated = true
    ∧ (runAppendsTracked
        (runAppendsTracked (startSession 0 [] 0 none 2)
          [(StreamKind.stdout, ['a', 'b', 'c'])])
        [(StreamKind.stderr, ['d'])]).truncated = true := by
  have h := c7_truncated_iff 2 0 [] 0 none
    [(StreamKind.stdout, ['a', 'b', 'c'])] [(StreamKind.stderr, ['d'])]
  have h1 : (runAppendsTracked (startSession 0 [] 0 none 2)
      [(StreamKind.stdout, ['a', 'b', 'c'])]).truncated = true :=
    h.1.mpr (by decide)
  exact ⟨h1, h.2 h1⟩

/-- The process-wide registry of spec §3: two partitions keyed by session
id.  The snapshot's src/core/tools/process-registry.ts holds only the single
running map (sessions, lines 18-30); the finished partition referenced by
getFinishedSession / listFinishedSessions in core/tools belongs to the newer
registry missing from the snapshot and is modelled from the spec. -/
structure Registry where
  running : List ProcessSession
  finished : List ProcessSession
deriving DecidableEq, Repr

/-- From src/core/tools/process-registry.ts (getSession, lines 24-26):
lookup in the running map. -/
def getSession (reg : Registry) (idv : Nat) : Option ProcessSession :=
  reg.running.find? (fun s => s.id == idv)

/-- Modelled from the spec: getFinishedSession, imported by core/tools from
the newer process-registry.ts absent from the snapshot (spec §4.4: lookup on
the finished partition). -/
def getFinishedSession (reg : Registry) (idv : Nat) : Option ProcessSession :=
  reg.finished.find? (fun s => s.id == idv)

/-- Modelled from the spec: the newer 4-argument markExited that core/tools
calls (bash.ts line 197, process.ts lines 125 and 252) but that is absent
from the snapshot (src/ holds only the superseded 3-argument session-level
version).  Spec §4.4: writes the terminal state and, on the first call that
transitions the Session to a finished status, moves it from running to
finished recording endedAt; spec §5: idempotent — a late OS exit
notification arriving after kill does not overwrite a Killed status. -/
def markExitedReg (reg : Registry) (idv : Nat) (code : Option Int)
    (sig : Option (List Char)) (st : SessionStatus) (now : Int) : Registry :=
  match getSession reg idv with
  | none => reg
  | some s =>
      if s.exited then reg
      else
        { running := reg.running.filter (fun t => !(t.id == idv))
          finished := reg.finished ++
            [{ s with exited := true, exitCode := code, exitSignal := sig,
                      status := st, endedAt := now }] }

/-- Modelled from the spec: PI_BASH_JOB_TTL_MS resolution for the finished
session TTL — default 1800000 ms (30 minutes), clamped to [60000, 10800000]
ms ([1, 180] minutes); the env read is absent from the snapshot (stated in
spec §4.4/§6 and in the design plan).  Reuses clampNumber from
src/core/tools/bash.ts. -/
def jobTtlMs (envRaw : Option Int) : Int :=
  clampNumber envRaw 1800000 60000 10800000

/-- Modelled from the spec: sweep(now) — absent from the snapshot.  Spec
§4.4/§8: evicts every finished session whose endedAt is older than
now - TTL and preserves every one whose endedAt is not; running sessions
are untouched. -/
def sweepRegistry (reg : Registry) (now ttl : Int) : Registry :=
  { reg with finished := reg.finished.filter (fun s => decide (now - ttl ≤ s.endedAt)) }

/-- From src/core/tools/process.ts: the text fragment
`signal ${exitSignal}` or `code ${exitCode ?? 0}` appended after
"Process exited with ". -/
def exitDescription (code : Option Int) (sig : Option (List Char)) : List Char :=
  match sig with
  | some s => ("signal ".data) ++ s
  | none => ("code ".data) ++ ((toString (code.getD 0)).data)

/-- ASCII JavaScript whitespace for String.prototype.trim / trimEnd (the
source never feeds other whitespace code points to these). -/
def isJsWhitespace (c : Char) : Bool :=
  c == ' ' || c == '\n' || c == '\t' || c == '\r'

/-- JavaScript String.prototype.trimEnd. -/
def trimEndString (l : List Char) : List Char :=
  (l.reverse.dropWhile isJsWhitespace).reverse

/-- JavaScript String.prototype.trim. -/
def trimString (l : List Char) : List Char :=
  ((l.dropWhile isJsWhitespace).reverse.dropWhile isJsWhitespace).reverse

/-- From src/core/tools/process.ts line 128: the drained text
[stdout.trimEnd(), stderr.trimEnd()].filter(Boolean).join(newline).trim(). -/
def joinDrained (so se : List Char) : List Char :=
  trimString (List.intercalate ['\n']
    (([trimEndString so, trimEndString se]).filter (fun p => !p.isEmpty)))

/-- Result of the poll action of src/core/tools/process.ts lines 84-143: one
variant per return site (the source returns a differently shaped details bag
at each site). -/
inductive PollResult
  | notFound
  | notBackgrounded
  | finishedInfo (text : List Char) (status : SessionStatus)
      (exitCode : Option Int) (aggregated : List Char)
  | drained (text : List Char) (status : SessionStatus)
      (exitCode : Option Int) (aggregated : List Char)
deriving DecidableEq, Repr

/-- From src/core/tools/process.ts lines 84-143 (action "poll"): look in the
running map first, then the finished partition; reject running sessions that
never backgrounded; drain, derive the terminal status, finalise via the
(modelled) markExited, and build the text exactly as the source does. -/
def pollAction (reg : Registry) (idv : Nat) (now : Int) : Registry × PollResult :=
  match getSession reg idv with
  | none =>
      match getFinishedSession reg idv with
      | some f =>
          (reg,
           PollResult.finishedInfo
             ((if f.tail.isEmpty then
                 ("(no output recorded".data)
                   ++ (if f.truncated then (" — truncated to cap".data) else [])
                   ++ (")".data)
               else f.tail)
              ++ ("\n\nProcess exited with ".data)
              ++ exitDescription f.exitCode f.exitSignal
              ++ (".".data))
             (if f.status = SessionStatus.completed then SessionStatus.completed
              else SessionStatus.failed)
             f.exitCode f.aggregated)
      | none => (reg, PollResult.notFound)
  | some s =>
      if !s.backgrounded then (reg, PollResult.notBackgrounded)
      else
        let d := drainSession s
        let code0 : Int := s.exitCode.getD 0
        let st : SessionStatus :=
          if s.exited then
            (if code0 = 0 ∧ s.exitSignal = none then SessionStatus.completed
             else SessionStatus.failed)
          else SessionStatus.running
        let reg1 : Registry :=
          { reg with running := reg.running.map (fun t => if t.id == idv then d.1 else t) }
        let reg2 : Registry :=
          if s.exited then
            markExitedReg reg1 idv s.exitCode s.exitSignal
              (if code0 = 0 ∧ s.exitSignal = none then SessionStatus.completed
               else SessionStatus.failed) now
          else reg1
        let output := joinDrained d.2.1 d.2.2
        (reg2,
         PollResult.drained
           ((if output.isEmpty then ("(no new output)".data) else output)
            ++ (if s.exited then
                  ("\n\nProcess exited with ".data)
                    ++ exitDescription s.exitCode s.exitSignal ++ (".".data)
                else ("\n\nProcess still running.".data)))
           st (if s.exited then some code0 else none) s.aggregated)

/-- Result of the kill action of src/core/tools/process.ts lines 234-258. -/
inductive KillResult
  | notFound
  | notBackgrounded
  | killed
deriving DecidableEq, Repr

/-- From src/core/tools/process.ts lines 234-258 (action "kill"): reject
unknown or never-backgrounded sessions; otherwise kill the process tree (an
external OS effect, not modelled) and force the synthetic terminal state
markExited(null, "SIGKILL", failed) so the finished partition records it
immediately. -/
def killAction (reg : Registry) (idv : Nat) (now : Int) : Registry × KillResult :=
  match getSession reg idv with
  | none => (reg, KillResult.notFound)
  | some s =>
      if !s.backgrounded then (reg, KillResult.notBackgrounded)
      else
        (markExitedReg reg idv none (some ("SIGKILL".data)) SessionStatus.failed now,
         KillResult.killed)

/-- Result of the write action of src/core/tools/process.ts lines 191-232. -/
inductive WriteResult
  | notFound
  | notBackgrounded
  | stdinNotWritable
  | wrote (bytes : Nat)
deriving DecidableEq, Repr

/-- From src/core/tools/process.ts lines 191-232 (action "write"): reject
unknown sessions, then never-backgrounded sessions, then sessions whose
stdin is missing or destroyed (stdinWritable models that check); otherwise
report the number of characters written. -/
def writeAction (reg : Registry) (idv : Nat) (stdinWritable : Bool)
    (data : List Char) : WriteResult :=
  match getSession reg idv with
  | none => WriteResult.notFound
  | some s =>
      if !s.backgrounded then WriteResult.notBackgrounded
      else if !stdinWritable then WriteResult.stdinNotWritable
      else WriteResult.wrote data.length

/-- Result of the log action of src/core/tools/process.ts lines 145-189. -/
inductive LogResult
  | notFound
  | notBackgrounded
  | slice (text : List Char) (total : Nat) (truncated : Bool)
      (status : SessionStatus)
deriving DecidableEq, Repr

/-- JavaScript aggregated.slice(offset ?? 0, limit ? offset + limit :
undefined) as used by the log actions: a falsy (absent or zero) limit means
"to the end". -/
def sliceJs (l : List Char) (offv : Nat) (limit : Option Nat) : List Char :=
  match limit with
  | some n => if n ≠ 0 then (l.drop offv).take n else l.drop offv
  | none => l.drop offv

/-- From src/core/tools/process.ts lines 145-189 (action "log"): running
sessions must be backgrounded; the slice is taken from the aggregated ring
without draining; status reports completed for exited or finished-completed
sessions and failed for other finished ones. -/
def logAction (reg : Registry) (idv : Nat) (offv : Option Nat)
    (limit : Option Nat) : LogResult :=
  match getSession reg idv with
  | some s =>
      if !s.backgrounded then LogResult.notBackgrounded
      else
        let sl := sliceJs s.aggregated (offv.getD 0) limit
        LogResult.slice (if sl.isEmpty then ("(no output yet)".data) else sl)
          s.aggregated.length s.truncated
          (if s.exited then SessionStatus.completed else SessionStatus.running)
  | none =>
      match getFinishedSession reg idv with
      | some f =>
          let sl := sliceJs f.aggregated (offv.getD 0) limit
          LogResult.slice (if sl.isEmpty then ("(no output recorded)".data) else sl)
            f.aggregated.length f.truncated
            (if f.status = SessionStatus.completed then SessionStatus.completed
             else SessionStatus.failed)
      | none => LogResult.notFound

/-- The three kinds of events a supervised session observes between start
and settlement: an output chunk (the data handlers of core/tools/bash.ts
lines 119-133), a yield (the timer of lines 177-189 or the yield token of
lines 159-175), and the child exit (lines 191-197). -/
inductive SupervisorEvent
  | output (stream : StreamKind) (chunk : List Char)
  | yieldFire
  | childExit (code : Option Int) (sig : Option (List Char))
deriving DecidableEq, Repr

/-- Modelled from the spec where marked: output events run the src
appendOutput; a child exit runs the src markExited and derives the final
status as core/tools/bash.ts lines 194-196 do (completed iff code 0 and no
signal; the abort token is not part of this trace model).  The yield case is
the modelled piece: spec §4.4 "the Registry ... recording backgrounded =
true the moment the Supervisor decides to yield a Session" — the snapshot
has readers of backgrounded (process.ts) but no writer. -/
def supervisorStep (s : ProcessSession) (e : SupervisorEvent) : ProcessSession :=
  match e with
  | SupervisorEvent.output st c => appendOutput s st c
  | SupervisorEvent.yieldFire => { s with backgrounded := true }
  | SupervisorEvent.childExit code sig =>
      { (markExited s code sig) with
          status := if code = some 0 ∧ sig = none then SessionStatus.completed
                    else SessionStatus.failed }

/-- A session folded through a list of supervisor events. -/
def runSupervisor (s : ProcessSession) (evts : List SupervisorEvent) :
    ProcessSession :=
  evts.foldl supervisorStep s

theorem runSupervisor_backgrounded (evts : List SupervisorEvent) :
    ∀ s : ProcessSession,
      (runSupervisor s evts).backgrounded
        = (s.backgrounded || decide (SupervisorEvent.yieldFire ∈ evts)) := by
  induction evts with
  | nil => intro s; simp [runSupervisor]
  | cons e es ih =>
      intro s
      have h := ih (supervisorStep s e)
      simp only [runSupervisor, List.foldl_cons] at h ⊢
      rw [h]
      cases e with
      | output st c => simp [supervisorStep, appendOutput, List.mem_cons]
      | yieldFire => simp [supervisorStep, List.mem_cons]
      | childExit code sig => simp [supervisorStep, markExited, List.mem_cons]

/-- C2: the session is recorded as backgrounded exactly when the supervisor
has yielded it (timer or yield token), and each management operation (poll,
write, kill) on an existing running session is rejected as
not-backgrounded if and only if the session has never yielded; hence after
a start call has returned a Running outcome (which happens exactly at a
yield) those operations are not rejected for lack of backgrounding. -/
theorem c2_backgrounded_gate (cap idv : Nat) (cmd : List Char) (t0 now : Int)
    (cwd : Option (List Char)) (evts : List SupervisorEvent) (reg : Registry)
    (s1 : ProcessSession) (stdinW : Bool) (data : List Char)
    (hrun : s1 = runSupervisor (startSession idv cmd t0 cwd cap) evts)
    (hlook : getSession reg s1.id = some s1) :
    (s1.backgrounded = true ↔ SupervisorEvent.yieldFire ∈ evts)
    ∧ ((pollAction reg s1.id now).2 = PollResult.notBackgrounded
        ↔ SupervisorEvent.yieldFire ∉ evts)
    ∧ ((killAction reg s1.id now).2 = KillResult.notBackgrounded
        ↔ SupervisorEvent.yieldFire ∉ evts)
    ∧ (writeAction reg s1.id stdinW data = WriteResult.notBackgrounded
        ↔ SupervisorEvent.yieldFire ∉ evts) := by
  have hbg : s1.backgrounded = decide (SupervisorEvent.yieldFire ∈ evts) := by
    rw [hrun, runSupervisor_backgrounded]
    simp [startSession]
  refine ⟨?_, ?_, ?_, ?_⟩
  · rw [hbg]; simp
  · by_cases hm : SupervisorEvent.yieldFire ∈ evts
    · simp [pollAction, hlook, hbg, hm]
    · simp [pollAction, hlook, hbg, hm]
  · by_cases hm : SupervisorEvent.yieldFire ∈ evts
    · simp [killAction, hlook, hbg, hm]
    · simp [killAction, hlook, hbg, hm]
  · by_cases hm : SupervisorEvent.yieldFire ∈ evts
    · by_cases hw : stdinW <;> simp [writeAction, hlook, hbg, hm, hw]
    · simp [writeAction, hlook, hbg, hm]

/-- C2 witness: one yield event makes the session backgrounded and poll is
not rejected. -/
theorem c2_backgrounded_gate_witness :
    ((runSupervisor (startSession 3 [] 0 none 50) [SupervisorEvent.yieldFire]).backgrounded = true
      ↔ SupervisorEvent.yieldFire ∈ [SupervisorEvent.yieldFire]) :=
  (c2_backgrounded_gate 50 3 [] 0 0 none [SupervisorEvent.yieldFire]
    ⟨[runSupervisor (startSession 3 [] 0 none 50) [SupervisorEvent.yieldFire]], []⟩
    (runSupervisor (startSession 3 [] 0 none 50) [SupervisorEvent.yieldFire])
    true [] rfl (by decide)).1

/-- C4: sweeping at time now evicts a finished session exactly when its
endedAt is older than now - TTL; the TTL defaults to 1800000 ms (30
minutes) and is always within [60000, 10800000] ms ([1, 180] minutes); and
once a session is no longer in either partition, poll and log report
session-not-found. -/
theorem c4_sweep_ttl (reg : Registry) (now : Int) (envRaw : Option Int)
    (s : ProcessSession) (idv : Nat)
    (hrun : getSession reg idv = none)
    (hgone : getFinishedSession (sweepRegistry reg now (jobTtlMs envRaw)) idv = none) :
    (s ∈ (sweepRegistry reg now (jobTtlMs envRaw)).finished
        ↔ s ∈ reg.finished ∧ now - jobTtlMs envRaw ≤ s.endedAt)
    ∧ jobTtlMs none = 1800000
    ∧ 60000 ≤ jobTtlMs envRaw ∧ jobTtlMs envRaw ≤ 10800000
    ∧ (pollAction (sweepRegistry reg now (jobTtlMs envRaw)) idv now).2 = PollResult.notFound
    ∧ logAction (sweepRegistry reg now (jobTtlMs envRaw)) idv none none = LogResult.notFound := by
  have hrun2 : getSession (sweepRegistry reg now (jobTtlMs envRaw)) idv = none := hrun
  refine ⟨?_, rfl, ?_, ?_, ?_, ?_⟩
  · simp [sweepRegistry, List.mem_filter]
  · cases envRaw with
    | none => norm_num [jobTtlMs, clampNumber]
    | some v => simp only [jobTtlMs, clampNumber]; omega
  · cases envRaw with
    | none => norm_num [jobTtlMs, clampNumber]
    | some v => simp only [jobTtlMs, clampNumber]; omega
  · simp [pollAction, hrun2, hgone]
  · simp [logAction, hrun2, hgone]

/-- A concrete finished session, ended at time 0, for the sweep witness. -/
def sweptSession : ProcessSession :=
  { startSession 4 [] 0 none 100 with
      exited := true
      status := SessionStatus.completed
      endedAt := 0 }

/-- C4 witness: a session whose endedAt is older than now - TTL is swept,
after which poll reports not-found. -/
theorem c4_sweep_ttl_witness :
    (pollAction (sweepRegistry ⟨[], [sweptSession]⟩ 2000000 (jobTtlMs none))
        4 2000001).2 = PollResult.notFound :=
  (c4_sweep_ttl ⟨[], [sweptSession]⟩ 2000000 none (startSession 9 [] 0 none 100)
    4 (by decide) (by decide)).2.2.2.2.1

theorem getSession_filter_self (l : List ProcessSession) (idv : Nat) :
    (l.filter (fun t => !(t.id == idv))).find? (fun s => s.id == idv) = none := by
  rw [List.find?_eq_none]
  intro x hx
  simp only [List.mem_filter] at hx
  simpa using hx.2

/-- The terminal record written on a session by the modelled markExited. -/
def finishedRecord (s : ProcessSession) (code : Option Int)
    (sig : Option (List Char)) (st : SessionStatus) (now : Int) :
    ProcessSession :=
  { s with
      exited := true
      exitCode := code
      exitSignal := sig
      status := st
      endedAt := now }

theorem markExitedReg_spec (reg : Registry) (idv : Nat) (code : Option Int)
    (sig : Option (List Char)) (st : SessionStatus) (now : Int)
    (s : ProcessSession) (hs : getSession reg idv = some s)
    (hex : s.exited = false) :
    markExitedReg reg idv code sig st now
      = { running := reg.running.filter (fun t => !(t.id == idv))
          finished := reg.finished ++ [finishedRecord s code sig st now] } := by
  simp [markExitedReg, hs, hex, finishedRecord]

theorem killAction_of_none (reg : Registry) (idv : Nat) (now : Int)
    (h : getSession reg idv = none) :
    killAction reg idv now = (reg, KillResult.notFound) := by
  simp [killAction, h]

theorem markExitedReg_of_none (reg : Registry) (idv : Nat) (code : Option Int)
    (sig : Option (List Char)) (st : SessionStatus) (now : Int)
    (h : getSession reg idv = none) :
    markExitedReg reg idv code sig st now = reg := by
  simp [markExitedReg, h]

theorem getSession_markExitedReg (reg : Registry) (idv : Nat)
    (code : Option Int) (sig : Option (List Char)) (st : SessionStatus)
    (now : Int) (s : ProcessSession) (hs : getSession reg idv = some s)
    (hex : s.exited = false) :
    getSession (markExitedReg reg idv code sig st now) idv = none := by
  rw [markExitedReg_spec reg idv code sig st now s hs hex]
  exact getSession_filter_self reg.running idv

theorem getFinishedSession_markExitedReg (reg : Registry) (idv : Nat)
    (code : Option Int) (sig : Option (List Char)) (st : SessionStatus)
    (now : Int) (s : ProcessSession) (hs : getSession reg idv = some s)
    (hex : s.exited = false) (hfin : getFinishedSession reg idv = none) :
    getFinishedSession (markExitedReg reg idv code sig st now) idv
      = some (finishedRecord s code sig st now) := by
  rw [markExitedReg_spec reg idv code sig st now s hs hex]
  unfold getFinishedSession at hfin ⊢
  rw [List.find?_append, hfin]
  have hs2 : reg.running.find? (fun t => t.id == idv) = some s := hs
  have hid := List.find?_some hs2
  have hid2 : ((finishedRecord s code sig st now).id == idv) = true := by
    simpa [finishedRecord] using hid
  have hone : List.find? (fun t => t.id == idv) [finishedRecord s code sig st now]
      = some (finishedRecord s code sig st now) := List.find?_cons_of_pos [] hid2
  simp [hone]

/-- C6: mark_exited is idempotent on terminal state: once kill has recorded
exitSignal SIGKILL with a failed (killed) terminal status, a later OS exit
notification calling mark_exited again changes nothing — the registry is
unchanged and the finished record keeps SIGKILL and the killed status. -/
theorem c6_markExited_idempotent (reg : Registry) (s : ProcessSession)
    (code : Option Int) (sig : Option (List Char)) (st : SessionStatus)
    (now now2 : Int)
    (hs : getSession reg s.id = some s) (hex : s.exited = false)
    (hfin : getFinishedSession reg s.id = none) :
    markExitedReg
        (markExitedReg reg s.id none (some ("SIGKILL".data)) SessionStatus.failed now)
        s.id code sig st now2
      = markExitedReg reg s.id none (some ("SIGKILL".data)) SessionStatus.failed now
    ∧ getFinishedSession
        (markExitedReg
          (markExitedReg reg s.id none (some ("SIGKILL".data)) SessionStatus.failed now)
          s.id code sig st now2) s.id
      = some (finishedRecord s none (some ("SIGKILL".data)) SessionStatus.failed now) := by
  have hnone : getSession
      (markExitedReg reg s.id none (some ("SIGKILL".data)) SessionStatus.failed now) s.id
      = none :=
    getSession_markExitedReg reg s.id none (some ("SIGKILL".data))
      SessionStatus.failed now s hs hex
  have hidem := markExitedReg_of_none
    (markExitedReg reg s.id none (some ("SIGKILL".data)) SessionStatus.failed now)
    s.id code sig st now2 hnone
  refine ⟨hidem, ?_⟩
  rw [hidem]
  exact getFinishedSession_markExitedReg reg s.id none (some ("SIGKILL".data))
    SessionStatus.failed now s hs hex hfin

/-- A concrete backgrounded running session used by witnesses. -/
def bgSession : ProcessSession :=
  { startSession 1 [] 0 none 100 with backgrounded := true }

/-- C6 witness: the concrete killed session keeps SIGKILL after a second
mark_exited reporting code 0. -/
theorem c6_markExited_idempotent_witness :
    markExitedReg
        (markExitedReg ⟨[bgSession], []⟩ bgSession.id none (some ("SIGKILL".data))
          SessionStatus.failed 5)
        bgSession.id (some 0) none SessionStatus.completed 6
      = markExitedReg ⟨[bgSession], []⟩ bgSession.id none (some ("SIGKILL".data))
          SessionStatus.failed 5 :=
  (c6_markExited_idempotent ⟨[bgSession], []⟩ bgSession (some 0) none
    SessionStatus.completed 5 6 (by decide) (by decide) (by decide)).1

/-- C5: for a backgrounded running session, kill records the synthetic
terminal state (exitSignal SIGKILL, failed/killed status) in the finished
partition immediately; a subsequent poll returns that terminal state — a
failed status with the signal named in the text — and the session stays
observable: further kill invocations and a late OS exit notification leave
the registry unchanged. -/
theorem c5_kill_then_poll (reg : Registry) (s : ProcessSession)
    (now now2 now3 : Int) (code : Option Int) (sig : Option (List Char))
    (st : SessionStatus)
    (hs : getSession reg s.id = some s) (hbg : s.backgrounded = true)
    (hex : s.exited = false) (hfin : getFinishedSession reg s.id = none) :
    (killAction reg s.id now).2 = KillResult.killed
    ∧ getFinishedSession (killAction reg s.id now).1 s.id
        = some (finishedRecord s none (some ("SIGKILL".data)) SessionStatus.failed now)
    ∧ (∃ txt, (pollAction (killAction reg s.id now).1 s.id now2).2
          = PollResult.finishedInfo txt SessionStatus.failed none s.aggregated
        ∧ ("signal SIGKILL.".data) <:+ txt)
    ∧ killAction (killAction reg s.id now).1 s.id now3
        = ((killAction reg s.id now).1, KillResult.notFound)
    ∧ markExitedReg (killAction reg s.id now).1 s.id code sig st now3
        = (killAction reg s.id now).1 := by
  have hk : killAction reg s.id now
      = (markExitedReg reg s.id none (some ("SIGKILL".data)) SessionStatus.failed now,
         KillResult.killed) := by
    simp [killAction, hs, hbg]
  have hnone : getSession (killAction reg s.id now).1 s.id = none := by
    rw [hk]
    exact getSession_markExitedReg reg s.id none (some ("SIGKILL".data))
      SessionStatus.failed now s hs hex
  have hrec : getFinishedSession (killAction reg s.id now).1 s.id
      = some (finishedRecord s none (some ("SIGKILL".data)) SessionStatus.failed now) := by
    rw [hk]
    exact getFinishedSession_markExitedReg reg s.id none (some ("SIGKILL".data))
      SessionStatus.failed now s hs hex hfin
  refine ⟨by rw [hk], hrec, ?_, ?_, ?_⟩
  · refine ⟨((if s.tail.isEmpty then
        ("(no output recorded".data)
          ++ (if s.truncated then (" — truncated to cap".data) else [])
          ++ (")".data)
      else s.tail)
      ++ ("\n\nProcess exited with ".data)
      ++ exitDescription none (some ("SIGKILL".data))
      ++ (".".data)), ?_, ?_⟩
    · simp only [pollAction, hnone, hrec]
      rfl
    · refine ⟨(if s.tail.isEmpty then
          ("(no output recorded".data)
            ++ (if s.truncated then (" — truncated to cap".data) else [])
            ++ (")".data)
        else s.tail)
        ++ ("\n\nProcess exited with ".data), ?_⟩
      have hsplit : ("signal SIGKILL.".data)
          = exitDescription none (some ("SIGKILL".data)) ++ (".".data) := by decide
      rw [hsplit]
      simp [List.append_assoc]
  · exact killAction_of_none (killAction reg s.id now).1 s.id now3 hnone
  · exact markExitedReg_of_none (killAction reg s.id now).1 s.id code sig st now3 hnone

/-- C5 witness: killing the concrete backgrounded session reports killed and
poll then finds the failed terminal state. -/
theorem c5_kill_then_poll_witness :
    (killAction ⟨[bgSession], []⟩ bgSession.id 7).2 = KillResult.killed :=
  (c5_kill_then_poll ⟨[bgSession], []⟩ bgSession 7 8 9 none none
    SessionStatus.failed (by decide) (by decide) (by decide) (by decide)).1

/-- From src/core/tools/bash.ts lines 203-208: the failure reason — a
present signal takes precedence, a null code gives the abort phrasing,
otherwise the exit code is named. -/
def exitReason (code : Option Int) (exitSignal : Option (List Char)) : List Char :=
  match exitSignal with
  | some sig => ("Command aborted by signal ".data) ++ sig
  | none =>
      match code with
      | none => ("Command aborted before exit code was captured".data)
      | some n => ("Command exited with code ".data) ++ ((toString n).data)

/-- Outcome of the supervisor settling a not-yet-yielded call on child exit
(src/core/tools/bash.ts lines 191-221): resolve completed, or reject with an
Error carrying the message. -/
inductive BashSettle
  | completed (text : List Char) (exitCode : Int) (aggregated : List Char)
  | rejected (message : List Char)
deriving DecidableEq, Repr

/-- From src/core/tools/bash.ts lines 191-221 (exit handler, not-yielded
path): isSuccess is code === 0 and no signal and the abort token has not
fired; the aggregated output is trimmed; on failure the message is the
trimmed output, a blank line and the reason when the output is non-empty,
else the bare reason. -/
def bashOnExit (aggregatedRaw : List Char) (code : Option Int)
    (exitSignal : Option (List Char)) (aborted : Bool) : BashSettle :=
  let aggregated := trimString aggregatedRaw
  if code = some 0 ∧ exitSignal = none ∧ aborted = false then
    BashSettle.completed
      (if aggregated.isEmpty then ("(no output)".data) else aggregated)
      (code.getD 0) aggregated
  else
    BashSettle.rejected
      (if aggregated.isEmpty then exitReason code exitSignal
       else aggregated ++ ("\n\n".data) ++ exitReason code exitSignal)

/-- C3 counterexample: with empty output, exit code 1, no signal and no
abort, the rejection message is the bare reason, not the claimed
"<aggregated output>\n\n<reason>" shape (which would begin with a blank
line). -/
theorem c3_message_shape_counterexample :
    bashOnExit [] (some 1) none false
        = BashSettle.rejected ("Command exited with code 1".data)
    ∧ ("Command exited with code 1".data)
        ≠ ([] : List Char) ++ ("\n\n".data) ++ ("Command exited with code 1".data) := by
  constructor
  · decide
  · decide

/-- C3 amended: a not-yet-yielded start call settles completed exactly when
the exit code is 0, no signal is present and the abort token has not fired
(a non-null signal takes precedence over code 0); otherwise it rejects with
a message that is the trimmed aggregated output followed by a blank line
and the reason when the trimmed output is non-empty, and the bare reason
when it is empty; the reason — naming the signal or the exit code — is in
either case a suffix of the message, so it sits on the final line. -/
theorem c3_settle_amended (aggRaw : List Char) (code : Option Int)
    (sig : Option (List Char)) (aborted : Bool) :
    ((∃ t c a, bashOnExit aggRaw code sig aborted = BashSettle.completed t c a)
        ↔ (code = some 0 ∧ sig = none ∧ aborted = false))
    ∧ bashOnExit aggRaw code sig aborted
        = (if code = some 0 ∧ sig = none ∧ aborted = false then
             BashSettle.completed
               (if (trimString aggRaw).isEmpty then ("(no output)".data)
                else trimString aggRaw) 0 (trimString aggRaw)
           else BashSettle.rejected
             (if (trimString aggRaw).isEmpty then exitReason code sig
              else trimString aggRaw ++ ("\n\n".data) ++ exitReason code sig))
    ∧ (exitReason code sig) <:+
        (if (trimString aggRaw).isEmpty then exitReason code sig
         else trimString aggRaw ++ ("\n\n".data) ++ exitReason code sig) := by
  refine ⟨?_, ?_, ?_⟩
  · constructor
    · rintro ⟨t, c, a, h⟩
      by_cases hc : code = some 0 ∧ sig = none ∧ aborted = false
      · exact hc
      · simp [bashOnExit, hc] at h
    · intro hc
      refine ⟨(if (trimString aggRaw).isEmpty then ("(no output)".data)
          else trimString aggRaw), code.getD 0, trimString aggRaw, ?_⟩
      simp [bashOnExit, hc]
  · by_cases hc : code = some 0 ∧ sig = none ∧ aborted = false
    · simp [bashOnExit, hc, hc.1]
    · simp [bashOnExit, hc]
  · by_cases he : (trimString aggRaw).isEmpty
    · simp [he]
    · simp only [he, if_false, Bool.false_eq_true]
      exact ⟨trimString aggRaw ++ ("\n\n".data), by simp [List.append_assoc]⟩

/-- The listing entry assembled by src/core/tools/list-processes.ts lines
15-40 (the fields relevant to ordering, slicing and reporting). -/
structure ProcessListEntry where
  sessionId : Nat
  status : SessionStatus
  startedAt : Int
  tailText : List Char
  truncated : Bool
  exitCode : Option Int
  exitSignal : Option (List Char)
deriving DecidableEq, Repr

/-- From src/core/tools/list-processes.ts lines 15-40: running entries (no
exit fields) followed by finished entries. -/
def listEntries (reg : Registry) : List ProcessListEntry :=
  reg.running.map (fun s =>
    { sessionId := s.id
      status := SessionStatus.running
      startedAt := s.startedAt
      tailText := s.tail
      truncated := s.truncated
      exitCode := none
      exitSignal := none })
  ++ reg.finished.map (fun s =>
    { sessionId := s.id
      status := s.status
      startedAt := s.startedAt
      tailText := s.tail
      truncated := s.truncated
      exitCode := s.exitCode
      exitSignal := s.exitSignal })

/-- From src/core/tools/list-processes.ts lines 42-43: all entries sorted by
startedAt descending (a stable mergeSort models the JS stable sort with the
comparator b.startedAt - a.startedAt), then
limit && limit > 0 ? all.slice(0, limit) : all. -/
def listProcesses (reg : Registry) (limit : Option Int) : List ProcessListEntry :=
  let all := (listEntries reg).mergeSort
    (fun a b => decide (b.startedAt ≤ a.startedAt))
  match limit with
  | some l => if 0 < l then all.take l.toNat else all
  | none => all

/-- C9 counterexample: with one finished session in the registry,
list(limit = 0) returns that session, not an empty snapshot — a zero limit
is falsy and takes the no-limit branch. -/
theorem c9_limit_zero_counterexample :
    listProcesses ⟨[], [sweptSession]⟩ (some 0) ≠ []
    ∧ listProcesses ⟨[], [sweptSession]⟩ (some 0)
        = listProcesses ⟨[], [sweptSession]⟩ none := by
  constructor
  · intro hcontra
    have hperm := List.mergeSort_perm (listEntries ⟨[], [sweptSession]⟩)
      (fun a b => decide (b.startedAt ≤ a.startedAt))
    have h0 : listProcesses ⟨[], [sweptSession]⟩ (some 0)
        = (listEntries ⟨[], [sweptSession]⟩).mergeSort
            (fun a b => decide (b.startedAt ≤ a.startedAt)) := by
      simp [listProcesses]
    rw [h0] at hcontra
    rw [hcontra] at hperm
    have hlen := hperm.length_eq
    simp [listEntries] at hlen
  · rfl

/-- C9 amended: list returns a snapshot of running and finished sessions
sorted by startedAt descending; with no limit it returns all sessions, a
positive limit takes the first limit entries of that ordering, and
limit = 0 behaves exactly like no limit (returning all sessions, not an
empty snapshot). -/
theorem c9_list_amended (reg : Registry) (l : Int) (hl : 0 < l) :
    listProcesses reg (some 0) = listProcesses reg none
    ∧ (listProcesses reg none).Perm (listEntries reg)
    ∧ List.Pairwise (fun a b => b.startedAt ≤ a.startedAt) (listProcesses reg none)
    ∧ listProcesses reg (some l) = (listProcesses reg none).take l.toNat := by
  refine ⟨rfl, ?_, ?_, ?_⟩
  · simpa [listProcesses] using
      List.mergeSort_perm (listEntries reg) (fun a b => decide (b.startedAt ≤ a.startedAt))
  · have htrans : ∀ a b c : ProcessListEntry,
        (decide (b.startedAt ≤ a.startedAt)) = true →
        (decide (c.startedAt ≤ b.startedAt)) = true →
        (decide (c.startedAt ≤ a.startedAt)) = true := by
      intro a b c h1 h2
      simp only [decide_eq_true_eq] at h1 h2 ⊢
      omega
    have htot : ∀ a b : ProcessListEntry,
        ((decide (b.startedAt ≤ a.startedAt))
          || (decide (a.startedAt ≤ b.startedAt))) = true := by
      intro a b
      by_cases h : b.startedAt ≤ a.startedAt
      · simp [h]
      · have h2 : a.startedAt ≤ b.startedAt := by omega
        simp [h, h2]
    have h := List.sorted_mergeSort htrans htot (listEntries reg)
    simp only [listProcesses]
    refine h.imp ?_
    intro a b hab
    simpa using hab
  · simp [listProcesses, hl]

/-- C9 amended witness: a positive limit of 1 takes the first entry of the
no-limit snapshot. -/
theorem c9_list_amended_witness :
    listProcesses ⟨[], [sweptSession]⟩ (some 1)
      = (listProcesses ⟨[], [sweptSession]⟩ none).take (1 : Int).toNat :=
  (c9_list_amended ⟨[], [sweptSession]⟩ 1 (by decide)).2.2.2

/-- From src/core/tools/get-process-log.ts lines 24-31 (running branch):
drain the pending queues and, whenever the drained text is non-empty,
re-append it via appendOutput — so the log fetch mutates the session before
slicing it. -/
def getProcessLogStep (s : ProcessSession) : ProcessSession :=
  let d := drainSession s
  let s1 := if d.2.1.isEmpty then d.1
            else appendOutput d.1 StreamKind.stdout d.2.1
  if d.2.2.isEmpty then s1
  else appendOutput s1 StreamKind.stderr d.2.2

theorem runAppends_maxOutputChars (chunks : List (StreamKind × List Char)) :
    ∀ s : ProcessSession,
      (runAppends s chunks).maxOutputChars = s.maxOutputChars := by
  induction chunks with
  | nil => intro s; rfl
  | cons p ps ih =>
      intro s
      simpa [runAppends] using ih (appendOutput s p.1 p.2)

theorem runAppends_aggregated_start (cap idv : Nat) (cmd : List Char)
    (t0 : Int) (cwd : Option (List Char))
    (chunks : List (StreamKind × List Char)) :
    (runAppends (startSession idv cmd t0 cwd cap) chunks).aggregated
      = trimWithCap (joinedHistory chunks) cap := by
  rw [runAppends_aggregated]
  have h0 : (trimWithCap [] cap) = ([] : List Char) := by
    simp [trimWithCap]
  have := ringFold_eq cap (chunks.map Prod.snd) []
  rw [h0] at this
  simpa [joinedHistory, startSession] using this

theorem runAppends_pendingStdout (chunks : List (StreamKind × List Char)) :
    ∀ s : ProcessSession,
      (runAppends s chunks).pendingStdout
        = s.pendingStdout ++ chunks.filterMap
            (fun p => if p.1 = StreamKind.stdout then some p.2 else none) := by
  induction chunks with
  | nil => intro s; simp [runAppends]
  | cons p ps ih =>
      intro s
      simp only [runAppends, List.foldl_cons, List.filterMap_cons] at ih ⊢
      rw [ih (appendOutput s p.1 p.2)]
      cases hp : p.1 <;> simp [appendOutput, hp]

theorem runAppends_pendingStderr (chunks : List (StreamKind × List Char)) :
    ∀ s : ProcessSession,
      (runAppends s chunks).pendingStderr
        = s.pendingStderr ++ chunks.filterMap
            (fun p => if p.1 = StreamKind.stderr then some p.2 else none) := by
  induction chunks with
  | nil => intro s; simp [runAppends]
  | cons p ps ih =>
      intro s
      simp only [runAppends, List.foldl_cons, List.filterMap_cons] at ih ⊢
      rw [ih (appendOutput s p.1 p.2)]
      cases hp : p.1 <;> simp [appendOutput, hp]

/-- C10: on a running session with non-empty pending queues the log fetch is
not read-only: the session's ring — which already holds the chunk history
(pending text included) trimmed to the cap — gets the drained stdout and
stderr text appended a second time (subject to the cap), and that drained
text is pushed back onto the pending queues, so a subsequent poll drains
exactly the same text again. -/
theorem c10_get_process_log_effect (cap idv : Nat) (cmd : List Char)
    (t0 : Int) (cwd : Option (List Char))
    (chunks : List (StreamKind × List Char))
    (hso : ((runAppends (startSession idv cmd t0 cwd cap) chunks).pendingStdout.flatten).isEmpty = false)
    (hse : ((runAppends (startSession idv cmd t0 cwd cap) chunks).pendingStderr.flatten).isEmpty = false) :
    (runAppends (startSession idv cmd t0 cwd cap) chunks).aggregated
        = trimWithCap (joinedHistory chunks) cap
    ∧ (getProcessLogStep (runAppends (startSession idv cmd t0 cwd cap) chunks)).aggregated
        = trimWithCap (joinedHistory chunks
            ++ (runAppends (startSession idv cmd t0 cwd cap) chunks).pendingStdout.flatten
            ++ (runAppends (startSession idv cmd t0 cwd cap) chunks).pendingStderr.flatten) cap
    ∧ (getProcessLogStep (runAppends (startSession idv cmd t0 cwd cap) chunks)).pendingStdout
        = [(runAppends (startSession idv cmd t0 cwd cap) chunks).pendingStdout.flatten]
    ∧ (getProcessLogStep (runAppends (startSession idv cmd t0 cwd cap) chunks)).pendingStderr
        = [(runAppends (startSession idv cmd t0 cwd cap) chunks).pendingStderr.flatten]
    ∧ (drainSession (getProcessLogStep (runAppends (startSession idv cmd t0 cwd cap) chunks))).2.1
        = (runAppends (startSession idv cmd t0 cwd cap) chunks).pendingStdout.flatten
    ∧ (drainSession (getProcessLogStep (runAppends (startSession idv cmd t0 cwd cap) chunks))).2.2
        = (runAppends (startSession idv cmd t0 cwd cap) chunks).pendingStderr.flatten := by
  have hagg := runAppends_aggregated_start cap idv cmd t0 cwd chunks
  have hcap := runAppends_maxOutputChars chunks (startSession idv cmd t0 cwd cap)
  have hstep : getProcessLogStep (runAppends (startSession idv cmd t0 cwd cap) chunks)
      = appendOutput
          (appendOutput
            ((drainSession (runAppends (startSession idv cmd t0 cwd cap) chunks)).1)
            StreamKind.stdout
            ((runAppends (startSession idv cmd t0 cwd cap) chunks).pendingStdout.flatten))
          StreamKind.stderr
          ((runAppends (startSession idv cmd t0 cwd cap) chunks).pendingStderr.flatten) := by
    simp only [getProcessLogStep, drainSession, hso, hse]
    rfl
  refine ⟨hagg, ?_, ?_, ?_, ?_, ?_⟩
  · rw [hstep]
    show trimWithCap (trimWithCap ((drainSession _).1.aggregated
        ++ _) (drainSession _).1.maxOutputChars ++ _) _ = _
    simp only [drainSession]
    show trimWithCap (trimWithCap ((runAppends (startSession idv cmd t0 cwd cap) chunks).aggregated
        ++ (runAppends (startSession idv cmd t0 cwd cap) chunks).pendingStdout.flatten)
        (runAppends (startSession idv cmd t0 cwd cap) chunks).maxOutputChars
        ++ (runAppends (startSession idv cmd t0 cwd cap) chunks).pendingStderr.flatten)
        (runAppends (startSession idv cmd t0 cwd cap) chunks).maxOutputChars = _
    rw [hagg, hcap]
    have h1 : cap = (startSession idv cmd t0 cwd cap).maxOutputChars := rfl
    rw [← h1]
    rw [trimWithCap_append_left, List.append_assoc, trimWithCap_append_left,
      List.append_assoc]
  · rw [hstep]
    simp [appendOutput, drainSession]
  · rw [hstep]
    simp [appendOutput, drainSession]
  · rw [hstep]
    simp [appendOutput, drainSession]
  · rw [hstep]
    simp [appendOutput, drainSession]

/-- C10 witness: one stdout chunk and one stderr chunk; the log fetch pushes
the drained text back onto the stdout queue. -/
theorem c10_get_process_log_effect_witness :
    (getProcessLogStep (runAppends (startSession 2 [] 0 none 100)
        [(StreamKind.stdout, ['a']), (StreamKind.stderr, ['b'])])).pendingStdout
      = [((runAppends (startSession 2 [] 0 none 100)
          [(StreamKind.stdout, ['a']), (StreamKind.stderr, ['b'])]).pendingStdout).flatten] :=
  (c10_get_process_log_effect 100 2 [] 0 none
    [(StreamKind.stdout, ['a']), (StreamKind.stderr, ['b'])]
    (by decide) (by decide)).2.2.1
